import Mathlib

/-!
Shallow embedding of the book-collection web application (src/app.py) and
verification of the specified properties of its core logic: the derived
author-first-token, the four listing sort orders, the edit and delete routes,
and the cover-collage generator.

Python strings are modelled as lists of characters; machine integers as Nat;
fallible operations (list indexing) as Option. Sorting (Python sorted and SQL
ORDER BY) is modelled by a structural insertion sort so that concrete
instances reduce inside the kernel.
-/

/-- Python strings, modelled as lists of characters. -/
abbrev PyStr := List Char

/-- The ASCII whitespace characters recognised by Python str.strip and
str.split (space, tab, newline, vertical tab, form feed, carriage return). -/
def pyIsSpace (c : Char) : Bool :=
  c = ' ' || c = '\t' || c = '\n' || c = '\x0b' || c = '\x0c' || c = '\r'

/-- Lowercasing of a single character in the ASCII range, as performed by
Python str.lower and by SQLite COLLATE NOCASE on the data in this app. -/
def asciiLowerChar (c : Char) : Char :=
  if 'A' ≤ c ∧ c ≤ 'Z' then Char.ofNat (c.toNat + 32) else c

/-- Lowercasing of a string (str.lower). -/
def asciiLower (s : PyStr) : PyStr := s.map asciiLowerChar

/-- Drop leading whitespace (the left half of str.strip, and what str.split
does before reading a token). -/
def dropSpaces : PyStr → PyStr
  | [] => []
  | c :: cs => if pyIsSpace c then dropSpaces cs else c :: cs

/-- The maximal non-whitespace prefix of a string: the first token str.split
would produce, when the string does not start with whitespace. -/
def takeToken : PyStr → PyStr
  | [] => []
  | c :: cs => if pyIsSpace c then [] else c :: takeToken cs

/-- Drop the maximal non-whitespace prefix; the rest of the input after
str.split has read one token. -/
def dropTokenChars : PyStr → PyStr
  | [] => []
  | c :: cs => if pyIsSpace c then c :: cs else dropTokenChars cs

/-- Drop trailing whitespace (the right half of str.strip). -/
def stripTrailing : PyStr → PyStr
  | [] => []
  | c :: cs =>
    match stripTrailing cs with
    | [] => if pyIsSpace c then [] else [c]
    | r => c :: r

/-- Python str.strip with no arguments: remove leading and trailing
whitespace. -/
def pyStrip (s : PyStr) : PyStr := stripTrailing (dropSpaces s)

/-- Python str.split with no separator: split on runs of whitespace,
discarding leading and trailing whitespace. -/
def pySplit : PyStr → List PyStr
  | [] => []
  | c :: cs =>
    if pyIsSpace c then pySplit cs
    else (c :: takeToken cs) :: pySplit (dropTokenChars cs)
termination_by s => s.length
decreasing_by
  · simp only [List.length_cons]; omega
  · have h : ∀ t : PyStr, (dropTokenChars t).length ≤ t.length := by
      intro t
      induction t with
      | nil => simp [dropTokenChars]
      | cons d ds ih =>
        simp only [dropTokenChars]
        split
        · exact Nat.le_refl _
        · exact Nat.le_trans ih (Nat.le_succ _)
    have := h cs
    simp only [List.length_cons]
    omega

/-- author_first_name from src/app.py lines 50-51:
return author.strip().split()[0].lower() if author.strip() else "".
The indexing [0] is fallible in Python, hence the Option result. -/
def author_first_name (author : PyStr) : Option PyStr :=
  if pyStrip author = [] then some []
  else ((pySplit (pyStrip author)).head?).map asciiLower

/-- Modelled from the spec words (section 8): author-first-token =
lowercase(first whitespace-delimited token); the empty string for an
all-whitespace or empty author. -/
def spec_author_first_token (author : PyStr) : PyStr :=
  asciiLower (takeToken (dropSpaces author))

/-- Binary (code-point) lexicographic less-or-equal on strings: the order of
SQLite BINARY collation and Python string comparison (memcmp over UTF-8
agrees with code-point order). -/
def strLe : PyStr → PyStr → Bool
  | [], _ => true
  | _ :: _, [] => false
  | a :: as, b :: bs =>
    if a.toNat < b.toNat then true
    else if b.toNat < a.toNat then false
    else strLe as bs

/-- Two-key comparison modelling a two-column ORDER BY: compare the second
keys when the first keys are equal, the first keys otherwise. -/
def lexPairLe (p q : PyStr × PyStr) : Bool :=
  if p.1 = q.1 then strLe p.2 q.2 else strLe p.1 q.1

/-- Insertion of an element into a list, in front of the first element it
compares at most as large as. -/
def insertLe {α : Type} (le : α → α → Bool) (a : α) : List α → List α
  | [] => [a]
  | b :: bs => if le a b then a :: b :: bs else b :: insertLe le a bs

/-- Insertion sort; stable like Python sorted, and deterministic like a
database ORDER BY. Used to model both. -/
def sortLe {α : Type} (le : α → α → Bool) : List α → List α
  | [] => []
  | a :: as => insertLe le a (sortLe le as)

/-- A row of the books table (src/app.py lines 56-66 plus the hover_message
column added by the migration at line 73). -/
structure Book where
  id : Nat
  title : PyStr
  author : PyStr
  author_first : PyStr
  edition : PyStr
  genre : PyStr
  cover_filename : Option PyStr
  created_at : PyStr
  hover_message : PyStr
deriving DecidableEq

/-- ORDER BY created_at DESC. -/
def dateLe (a b : Book) : Bool := strLe b.created_at a.created_at

/-- ORDER BY title COLLATE NOCASE ASC. -/
def titleLe (a b : Book) : Bool := strLe (asciiLower a.title) (asciiLower b.title)

/-- ORDER BY genre COLLATE NOCASE ASC, title COLLATE NOCASE ASC. -/
def genreLe (a b : Book) : Bool :=
  lexPairLe (asciiLower a.genre, asciiLower a.title) (asciiLower b.genre, asciiLower b.title)

/-- ORDER BY author_first COLLATE NOCASE ASC, author COLLATE NOCASE ASC. -/
def authorLe (a b : Book) : Bool :=
  lexPairLe (asciiLower a.author_first, asciiLower a.author)
    (asciiLower b.author_first, asciiLower b.author)

/-- The sort-key dictionary of the collection view (src/app.py lines 172-177)
with dict.get falling back to the date order for unknown keys. -/
def order_by (sort : PyStr) : Book → Book → Bool :=
  (List.lookup sort
    [("date".data, dateLe), ("title".data, titleLe),
     ("genre".data, genreLe), ("author".data, authorLe)]).getD dateLe

/-- GET /collection (src/app.py lines 170-181): SELECT * FROM books ORDER BY
the selected order. -/
def collection (sort : PyStr) (books : List Book) : List Book :=
  sortLe (order_by sort) books

/-- Python pathlib Path.suffix of a file name: the extension including its
dot; empty when the name has no dot, or its last dot is the first or the last
character. Cover names in this app are plain file names without directory
separators. -/
def pySuffix (s : PyStr) : PyStr :=
  match s.reverse.findIdx? (fun c => c = '.') with
  | none => []
  | some j =>
    if 0 < s.length - 1 - j ∧ s.length - 1 - j < s.length - 1 then
      s.drop (s.length - 1 - j)
    else []

/-- An uploaded file as the routes see it: a FastAPI UploadFile with the
client-supplied filename. An absent upload is none at the call sites. -/
structure Upload where
  filename : PyStr
deriving DecidableEq

/-- The response every mutating route returns:
RedirectResponse(url="/collection", status_code=303). -/
inductive Resp where
  | redirect (url : PyStr) (status : Nat)
deriving DecidableEq

/-- POST /book/{book_id}/edit (src/app.py lines 204-249). The books table is
a list of rows; SELECT ... WHERE id = ? is find?; UPDATE ... WHERE id = ?
rewrites every matching row, and its SET list omits id and created_at. A
newly uploaded cover is stored under uuid4().hex plus the lowercased original
extension; the random hex is taken as the parameter freshHex. The fallible
author-first derivation makes the result an Option. -/
def edit_book (books : List Book) (book_id : Nat)
    (title author edition genre hover_message : PyStr)
    (cover : Option Upload) (freshHex : PyStr) :
    Option (List Book × Resp) :=
  match books.find? (fun b => b.id == book_id) with
  | none => some (books, .redirect "/collection".data 303)
  | some existing =>
    let cover_filename :=
      match cover with
      | some u =>
        if u.filename ≠ [] then some (freshHex ++ asciiLower (pySuffix u.filename))
        else existing.cover_filename
      | none => existing.cover_filename
    (author_first_name author).map fun af =>
      (books.map fun b =>
        if b.id == book_id then
          { b with title := title, author := author, author_first := af,
                   edition := edition, genre := genre,
                   hover_message := hover_message,
                   cover_filename := cover_filename }
        else b,
       .redirect "/collection".data 303)

/-- A file in the covers directory: its name, and whether PIL can decode it
(Image.open followed by convert succeeds on its bytes). -/
structure CoverFile where
  name : PyStr
  decodable : Bool
deriving DecidableEq

/-- sorted() over the glob results compares paths that share the directory
prefix, hence compares the file names binary-lexicographically. -/
def coverLe (a b : CoverFile) : Bool := strLe a.name b.name

/-- The extension allow-list of src/app.py line 81. -/
def allowedExts : List PyStr :=
  [".jpg".data, ".jpeg".data, ".png".data, ".webp".data]

/-- Lines 80-81: directory entries sorted, then filtered by the lowercased
extension allow-list. -/
def collageAssets (files : List CoverFile) : List CoverFile :=
  (sortLe coverLe files).filter fun p => asciiLower (pySuffix p.name) ∈ allowedExts

/-- Integer square root by counting: among 0..n there are exactly
floor(sqrt n) + 1 numbers k with k * k ≤ n. Structurally computable, so that
concrete instances reduce inside the kernel; proved equal to Nat.sqrt
below. -/
def intSqrt (n : Nat) : Nat :=
  (((List.range (n + 1)).filter fun k => k * k ≤ n).length) - 1

/-- Line 91: cols = min(8, max(3, int(math.sqrt(n) * 2))). math.sqrt is the
correctly rounded real square root and int truncates towards zero, so the
inner value is the integer part of 2 * sqrt(n), which equals the integer
square root of 4 * n. -/
def collageCols (n : Nat) : Nat := min 8 (max 3 (intSqrt (4 * n)))

/-- Line 92: rows = math.ceil(n / cols); the ceiling of n / c equals
(n + c - 1) / c in integer division. -/
def collageRows (n : Nat) : Nat := (n + collageCols n - 1) / collageCols n

/-- Modelled from the spec words (section 4.3 step 4): column count =
clamp(round(sqrt(N) * 2), min 3, max 8). The nearest integer to 2 * sqrt(n)
is (intSqrt (16 * n) + 1) / 2; theorem spec_claimed_cols_round below
certifies this encoding of round. -/
def spec_claimed_cols (n : Nat) : Nat :=
  min 8 (max 3 ((intSqrt (16 * n) + 1) / 2))

/-- One pasted tile of the collage: the cover named name, resized to w by h,
pasted with its top-left corner at pixel (x, y). -/
structure Tile where
  x : Nat
  y : Nat
  w : Nat
  h : Nat
  name : PyStr
deriving DecidableEq

/-- The composite image: Image.new(mode, (width, height), background)
together with the pasted tiles. -/
structure Collage where
  mode : PyStr
  width : Nat
  height : Nat
  background : Nat × Nat × Nat
  tiles : List Tile
deriving DecidableEq

/-- Lines 96-104: enumerate the assets; index i is pasted at row i / cols and
column i % cols after a resize to 220 x 320; an asset that fails to decode is
skipped (try/except: continue), leaving its slot showing the background. -/
def collageTiles (covers : List CoverFile) (c : Nat) : List Tile :=
  covers.enum.filterMap fun p =>
    if p.2.decodable then
      some { x := p.1 % c * 220, y := p.1 / c * 320, w := 220, h := 320,
             name := p.2.name }
    else none

/-- generate_cover_collage (src/app.py lines 76-106) as a function from the
covers-directory contents and the previously generated collage file to the
collage file afterwards. With no assets the previous file is unlinked if it
exists and the function returns, so the result is none regardless of prev;
otherwise the composite is built and saved, overwriting prev. -/
def generate_cover_collage (files : List CoverFile) (_prev : Option Collage) :
    Option Collage :=
  let covers := collageAssets files
  if covers = [] then none
  else
    let n := covers.length
    some { mode := "RGB".data, width := collageCols n * 220,
           height := collageRows n * 320, background := (255, 255, 255),
           tiles := collageTiles covers (collageCols n) }

/-- The persistent state a mutating route touches: the books table, the
covers directory, and the generated collage file. -/
structure AppState where
  books : List Book
  coverFiles : List CoverFile
  collage : Option Collage
deriving DecidableEq

/-- POST /book/{book_id}/delete (src/app.py lines 252-260): DELETE FROM books
WHERE id = ?, regenerate the collage, redirect 303 to /collection. Deleting a
row does not remove its cover file from the covers directory. -/
def delete_book (st : AppState) (book_id : Nat) : AppState × Resp :=
  ({ books := st.books.filter fun b => !(b.id == book_id),
     coverFiles := st.coverFiles,
     collage := generate_cover_collage st.coverFiles st.collage },
   .redirect "/collection".data 303)

/-- A sample book record, used to instantiate claim theorems on concrete
inputs. -/
def bookA : Book :=
  { id := 1, title := "Dune".data, author := "Frank Herbert".data,
    author_first := "frank".data, edition := [], genre := "Sci-Fi".data,
    cover_filename := some "aa.jpg".data,
    created_at := "2024-01-01T00:00:00".data, hover_message := [] }

/-- A second sample book record. -/
def bookB : Book :=
  { id := 2, title := "Emma".data, author := "Jane Austen".data,
    author_first := "jane".data, edition := [], genre := "Romance".data,
    cover_filename := none,
    created_at := "2024-02-03T00:00:00".data, hover_message := [] }

/-- A sample collage value standing for a previously generated collage
file. -/
def oldCollage : Collage :=
  { mode := "RGB".data, width := 660, height := 320,
    background := (255, 255, 255), tiles := [] }

/-- Sample covers-directory contents: three decodable covers and one corrupt
file. -/
def filesFour : List CoverFile :=
  [⟨"a.jpg".data, true⟩, ⟨"b.png".data, false⟩,
   ⟨"c.webp".data, true⟩, ⟨"d.jpeg".data, true⟩]

/-- Sample covers-directory contents whose names arrive unsorted. -/
def filesTwo : List CoverFile := [⟨"b.jpg".data, true⟩, ⟨"a.jpg".data, true⟩]

/-- A sample state holding one book whose cover file is on disk, plus an
existing collage file. -/
def stOne : AppState :=
  { books := [bookA], coverFiles := [⟨"aa.jpg".data, true⟩],
    collage := some oldCollage }

/-- A sample state with two books. -/
def stTwo : AppState :=
  { books := [bookA, bookB], coverFiles := [⟨"aa.jpg".data, true⟩],
    collage := some oldCollage }

theorem dropSpaces_head_not_space {s : PyStr} {c : Char} {cs : PyStr}
    (h : dropSpaces s = c :: cs) : pyIsSpace c = false := by
  induction s with
  | nil => simp [dropSpaces] at h
  | cons d ds ih =>
    simp only [dropSpaces] at h
    by_cases hd : pyIsSpace d
    · exact ih (by simpa [hd] using h)
    · obtain ⟨rfl, rfl⟩ := by simpa [hd] using h
      simpa using hd

theorem stripTrailing_cons_of_not_space {c : Char} (cs : PyStr)
    (h : pyIsSpace c = false) :
    ∃ r, stripTrailing (c :: cs) = c :: r := by
  simp only [stripTrailing]
  rcases hst : stripTrailing cs with _ | ⟨d, ds⟩
  · exact ⟨[], by simp [h]⟩
  · exact ⟨d :: ds, rfl⟩

theorem takeToken_stripTrailing (s : PyStr) :
    takeToken (stripTrailing s) = takeToken s := by
  induction s with
  | nil => rfl
  | cons c cs ih =>
    simp only [stripTrailing]
    rcases hst : stripTrailing cs with _ | ⟨d, ds⟩
    · by_cases hc : pyIsSpace c
      · simp [takeToken, hc]
      · rw [hst] at ih
        simp [takeToken, hc, ← ih]
    · rw [hst] at ih
      simp [takeToken, ← ih]

theorem author_first_name_eq (author : PyStr) :
    author_first_name author = some (spec_author_first_token author) := by
  unfold author_first_name spec_author_first_token
  by_cases h : pyStrip author = []
  · have hds : dropSpaces author = [] := by
      rcases hd : dropSpaces author with _ | ⟨c, cs⟩
      · rfl
      · have hc := dropSpaces_head_not_space hd
        obtain ⟨r, hr⟩ := stripTrailing_cons_of_not_space cs hc
        rw [pyStrip, hd, hr] at h
        exact absurd h (by simp)
    simp [h, hds, takeToken, asciiLower]
  · rcases hd : dropSpaces author with _ | ⟨c, cs⟩
    · rw [pyStrip, hd] at h
      exact absurd rfl h
    · have hc := dropSpaces_head_not_space hd
      obtain ⟨r, hr⟩ := stripTrailing_cons_of_not_space cs hc
      rw [pyStrip, hd, hr] at h ⊢
      have hsplit : pySplit (c :: r) = (c :: takeToken r) :: pySplit (dropTokenChars r) := by
        simp [pySplit, hc]
      have htt : takeToken (c :: r) = takeToken (c :: cs) := by
        have := takeToken_stripTrailing (c :: cs)
        rwa [hr] at this
      simp only [hsplit, List.head?_cons, Option.map_some', if_neg h]
      rw [show c :: takeToken r = takeToken (c :: r) by simp [takeToken, hc], htt]

/-- Claim C2: for every author string, the derived author-first-token equals
the lowercase of the first whitespace-delimited token of the author; for an
empty or all-whitespace author it equals the empty string (the spec-side
function spec_author_first_token returns the empty string in exactly that
case, since dropSpaces consumes the whole input and takeToken of an empty
string is empty). -/
theorem C2_author_first_token (author : PyStr) :
    author_first_name author = some (spec_author_first_token author) :=
  author_first_name_eq author

theorem char_toNat_inj {a b : Char} (h : a.toNat = b.toNat) : a = b := by
  have ha := Char.ofNat_toNat a
  rw [h, Char.ofNat_toNat] at ha
  exact ha.symm

theorem strLe_cons_iff {x y : Char} {xs ys : PyStr} :
    strLe (x :: xs) (y :: ys) = true ↔
      x.toNat < y.toNat ∨ (x = y ∧ strLe xs ys = true) := by
  simp only [strLe]
  by_cases h1 : x.toNat < y.toNat
  · simp [h1]
  · by_cases h2 : y.toNat < x.toNat
    · simp only [if_neg h1, if_pos h2]
      constructor
      · intro h; cases h
      · rintro (h | ⟨rfl, -⟩) <;> omega
    · have hxy : x = y := char_toNat_inj (by omega)
      simp [h1, h2, hxy]

theorem strLe_total (a b : PyStr) : strLe a b || strLe b a := by
  induction a generalizing b with
  | nil => simp [strLe]
  | cons x xs ih =>
    cases b with
    | nil => simp [strLe]
    | cons y ys =>
      simp only [strLe]
      by_cases h1 : x.toNat < y.toNat
      · simp [h1]
      · by_cases h2 : y.toNat < x.toNat
        · simp [h1, h2]
        · simpa [h1, h2] using ih ys

theorem strLe_trans (a : PyStr) : ∀ b c, strLe a b → strLe b c → strLe a c := by
  induction a with
  | nil => intro b c _ _; rfl
  | cons x xs ih =>
    intro b c hab hbc
    cases b with
    | nil => simp [strLe] at hab
    | cons y ys =>
      cases c with
      | nil => simp [strLe] at hbc
      | cons z zs =>
        rw [strLe_cons_iff] at hab hbc ⊢
        rcases hab with h1 | ⟨rfl, h1⟩
        · rcases hbc with h2 | ⟨rfl, h2⟩
          · exact Or.inl (by omega)
          · exact Or.inl h1
        · rcases hbc with h2 | ⟨rfl, h2⟩
          · exact Or.inl h2
          · exact Or.inr ⟨rfl, ih ys zs h1 h2⟩

theorem strLe_antisymm (a : PyStr) : ∀ b, strLe a b → strLe b a → a = b := by
  induction a with
  | nil =>
    intro b _ hba
    cases b with
    | nil => rfl
    | cons y ys => simp [strLe] at hba
  | cons x xs ih =>
    intro b hab hba
    cases b with
    | nil => simp [strLe] at hab
    | cons y ys =>
      rw [strLe_cons_iff] at hab hba
      rcases hab with h1 | ⟨rfl, h1⟩
      · rcases hba with h2 | ⟨heq, h2⟩
        · omega
        · exact absurd (congrArg Char.toNat heq) (by omega)
      · rcases hba with h2 | ⟨-, h2⟩
        · omega
        · rw [ih ys h1 h2]

theorem lexPairLe_iff {p q : PyStr × PyStr} :
    lexPairLe p q = true ↔
      (p.1 = q.1 ∧ strLe p.2 q.2 = true) ∨ (p.1 ≠ q.1 ∧ strLe p.1 q.1 = true) := by
  unfold lexPairLe
  by_cases h : p.1 = q.1 <;> simp [h]

theorem lexPairLe_trans {p q r : PyStr × PyStr}
    (h1 : lexPairLe p q) (h2 : lexPairLe q r) : lexPairLe p r := by
  rw [lexPairLe_iff] at h1 h2 ⊢
  rcases h1 with ⟨e1, l1⟩ | ⟨n1, l1⟩
  · rcases h2 with ⟨e2, l2⟩ | ⟨n2, l2⟩
    · exact Or.inl ⟨e1.trans e2, strLe_trans _ _ _ l1 l2⟩
    · exact Or.inr ⟨fun h => n2 (e1 ▸ h), e1 ▸ l2⟩
  · rcases h2 with ⟨e2, l2⟩ | ⟨n2, l2⟩
    · exact Or.inr ⟨fun h => n1 (h.trans e2.symm), e2 ▸ l1⟩
    · refine Or.inr ⟨fun h => ?_, strLe_trans _ _ _ l1 l2⟩
      exact n1 (strLe_antisymm _ _ l1 (h ▸ l2))

theorem lexPairLe_total (p q : PyStr × PyStr) : lexPairLe p q || lexPairLe q p := by
  unfold lexPairLe
  by_cases h : p.1 = q.1
  · simp [h, strLe_total]
  · have h2 : ¬ q.1 = p.1 := fun hh => h hh.symm
    simp [h, h2, strLe_total]

theorem mem_insertLe {α : Type} {le : α → α → Bool} {a x : α} {l : List α} :
    x ∈ insertLe le a l ↔ x = a ∨ x ∈ l := by
  induction l with
  | nil => simp [insertLe]
  | cons b bs ih =>
    simp only [insertLe]
    split
    · simp [List.mem_cons]
    · simp only [List.mem_cons, ih]
      tauto

theorem insertLe_perm {α : Type} (le : α → α → Bool) (a : α) (l : List α) :
    (insertLe le a l).Perm (a :: l) := by
  induction l with
  | nil => exact List.Perm.refl _
  | cons b bs ih =>
    simp only [insertLe]
    split
    · exact List.Perm.refl _
    · exact (ih.cons b).trans (List.Perm.swap a b bs)

theorem sortLe_perm {α : Type} (le : α → α → Bool) (l : List α) :
    (sortLe le l).Perm l := by
  induction l with
  | nil => exact List.Perm.refl _
  | cons a as ih => exact (insertLe_perm le a (sortLe le as)).trans (ih.cons a)

theorem pairwise_insertLe {α : Type} {le : α → α → Bool}
    (htrans : ∀ a b c, le a b → le b c → le a c)
    (htotal : ∀ a b, le a b || le b a) (a : α) :
    ∀ {l : List α}, l.Pairwise (fun x y => le x y = true) →
      (insertLe le a l).Pairwise fun x y => le x y = true := by
  intro l hl
  induction l with
  | nil => simp [insertLe]
  | cons b bs ih =>
    rcases List.pairwise_cons.mp hl with ⟨hb, hbs⟩
    simp only [insertLe]
    by_cases hab : le a b = true
    · rw [if_pos hab]
      refine List.pairwise_cons.mpr ⟨?_, hl⟩
      intro x hx
      rcases List.mem_cons.mp hx with rfl | hx
      · exact hab
      · exact htrans a b x hab (hb x hx)
    · rw [if_neg hab]
      refine List.pairwise_cons.mpr ⟨?_, ih hbs⟩
      intro x hx
      rcases mem_insertLe.mp hx with h | hx
      · have ht := htotal a b
        simp only [hab, Bool.false_or] at ht
        rw [h]
        exact ht
      · exact hb x hx

theorem sortLe_sorted {α : Type} (le : α → α → Bool)
    (htrans : ∀ a b c, le a b → le b c → le a c)
    (htotal : ∀ a b, le a b || le b a) :
    ∀ l : List α, (sortLe le l).Pairwise fun x y => le x y = true := by
  intro l
  induction l with
  | nil => simp [sortLe]
  | cons a as ih => exact pairwise_insertLe htrans htotal a ih

theorem order_by_date : order_by ("date".data) = dateLe := rfl

theorem order_by_title : order_by ("title".data) = titleLe := rfl

theorem order_by_genre : order_by ("genre".data) = genreLe := rfl

theorem order_by_author : order_by ("author".data) = authorLe := rfl

theorem order_by_default {s : PyStr}
    (h : s ∉ [("date".data : PyStr), "title".data, "genre".data, "author".data]) :
    order_by s = dateLe := by
  simp only [List.mem_cons, List.mem_singleton, not_or] at h
  obtain ⟨h1, h2, h3, h4, -⟩ := h
  simp [order_by, List.lookup, beq_eq_false_iff_ne.mpr h1, beq_eq_false_iff_ne.mpr h2,
    beq_eq_false_iff_ne.mpr h3, beq_eq_false_iff_ne.mpr h4]

theorem dateLe_trans : ∀ a b c : Book, dateLe a b → dateLe b c → dateLe a c :=
  fun _ _ _ h1 h2 => strLe_trans _ _ _ h2 h1

theorem dateLe_total : ∀ a b : Book, dateLe a b || dateLe b a :=
  fun a b => strLe_total b.created_at a.created_at

theorem titleLe_trans : ∀ a b c : Book, titleLe a b → titleLe b c → titleLe a c :=
  fun _ _ _ h1 h2 => strLe_trans _ _ _ h1 h2

theorem titleLe_total : ∀ a b : Book, titleLe a b || titleLe b a :=
  fun a b => strLe_total (asciiLower a.title) (asciiLower b.title)

theorem genreLe_trans : ∀ a b c : Book, genreLe a b → genreLe b c → genreLe a c :=
  fun _ _ _ h1 h2 => lexPairLe_trans h1 h2

theorem genreLe_total : ∀ a b : Book, genreLe a b || genreLe b a :=
  fun _ _ => lexPairLe_total _ _

theorem authorLe_trans : ∀ a b c : Book, authorLe a b → authorLe b c → authorLe a c :=
  fun _ _ _ h1 h2 => lexPairLe_trans h1 h2

theorem authorLe_total : ∀ a b : Book, authorLe a b || authorLe b a :=
  fun _ _ => lexPairLe_total _ _

/-- Claim C3: the listing supports exactly four sort orders keyed by a
string: date orders by creation timestamp descending; title by title
ascending case-insensitively; genre by genre ascending case-insensitively
with title ascending case-insensitively as tiebreak; author by
author-first-token ascending case-insensitively with full author ascending
case-insensitively as tiebreak; every sort key outside these four produces
the date order. The listing is always a permutation of the stored records. -/
theorem C3_sort_orders (sort : PyStr) (books : List Book) :
    (collection sort books).Perm books ∧
    (sort = "date".data →
      (collection sort books).Pairwise fun a b =>
        strLe b.created_at a.created_at = true) ∧
    (sort = "title".data →
      (collection sort books).Pairwise fun a b =>
        strLe (asciiLower a.title) (asciiLower b.title) = true) ∧
    (sort = "genre".data →
      (collection sort books).Pairwise fun a b =>
        (asciiLower a.genre = asciiLower b.genre ∧
          strLe (asciiLower a.title) (asciiLower b.title) = true) ∨
        (asciiLower a.genre ≠ asciiLower b.genre ∧
          strLe (asciiLower a.genre) (asciiLower b.genre) = true)) ∧
    (sort = "author".data →
      (collection sort books).Pairwise fun a b =>
        (asciiLower a.author_first = asciiLower b.author_first ∧
          strLe (asciiLower a.author) (asciiLower b.author) = true) ∨
        (asciiLower a.author_first ≠ asciiLower b.author_first ∧
          strLe (asciiLower a.author_first) (asciiLower b.author_first) = true)) ∧
    (sort ∉ [("date".data : PyStr), "title".data, "genre".data, "author".data] →
      collection sort books = collection "date".data books) := by
  refine ⟨sortLe_perm _ books, ?_, ?_, ?_, ?_, ?_⟩
  · rintro rfl
    unfold collection
    rw [order_by_date]
    exact sortLe_sorted dateLe dateLe_trans dateLe_total books
  · rintro rfl
    unfold collection
    rw [order_by_title]
    exact sortLe_sorted titleLe titleLe_trans titleLe_total books
  · rintro rfl
    unfold collection
    rw [order_by_genre]
    exact (sortLe_sorted genreLe genreLe_trans genreLe_total books).imp
      fun h => lexPairLe_iff.mp h
  · rintro rfl
    unfold collection
    rw [order_by_author]
    exact (sortLe_sorted authorLe authorLe_trans authorLe_total books).imp
      fun h => lexPairLe_iff.mp h
  · intro h
    unfold collection
    rw [order_by_default h, order_by_date]

theorem C3_sort_orders_witness :
    ("size".data ∉ [("date".data : PyStr), "title".data, "genre".data, "author".data]) ∧
    collection ("size".data) [bookA, bookB] = collection ("date".data) [bookA, bookB] :=
  ⟨by decide, (C3_sort_orders ("size".data) [bookA, bookB]).2.2.2.2.2 (by decide)⟩

theorem map_update_proj {α : Type} (books : List Book) (upd : Book → Book)
    (f : Book → α) (hf : ∀ b ∈ books, f (upd b) = f b) :
    (books.map upd).map f = books.map f := by
  rw [List.map_map]
  exact List.map_congr_left fun b hb => hf b hb

theorem filter_map_update {α : Type} (books : List Book) (p : Book → Bool)
    (upd : Book → Book) (hp : ∀ b, p (upd b) = p b) (f g : Book → α)
    (hf : ∀ b, p b = true → f (upd b) = g b) :
    ((books.map upd).filter p).map f = (books.filter p).map g := by
  induction books with
  | nil => rfl
  | cons b bs ih =>
    simp only [List.map_cons, List.filter_cons, hp b]
    by_cases hb : p b = true
    · simp [hb, hf b hb, ih]
    · rw [Bool.not_eq_true] at hb
      simp [hb, ih]

/-- Claim C6: an edit in which no new cover file is uploaded leaves every
stored cover filename exactly as it was before the edit (record ids are
unique, as the table's INTEGER PRIMARY KEY guarantees); hence the stored
cover filename is replaced only when a new cover is uploaded during the
edit. -/
theorem C6_edit_preserves_cover (books : List Book) (book_id : Nat)
    (title author edition genre hover_message : PyStr)
    (cover : Option Upload) (freshHex : PyStr)
    (hnodup : (books.map Book.id).Nodup)
    (hcov : ∀ u, cover = some u → u.filename = []) :
    (edit_book books book_id title author edition genre hover_message
        cover freshHex).map (fun res => res.1.map Book.cover_filename)
      = some (books.map Book.cover_filename) := by
  have key : ∀ existing : Book, books.find? (fun b => b.id == book_id) = some existing →
      (books.map fun b =>
        if b.id == book_id then
          { b with title := title, author := author,
                   author_first := spec_author_first_token author,
                   edition := edition, genre := genre,
                   hover_message := hover_message,
                   cover_filename := existing.cover_filename }
        else b).map Book.cover_filename = books.map Book.cover_filename := by
    intro existing hfind
    have hmem : existing ∈ books := List.mem_of_find?_eq_some hfind
    have hid : existing.id = book_id := by simpa using List.find?_some hfind
    refine map_update_proj books _ _ ?_
    intro b hb
    by_cases hbid : (b.id == book_id) = true
    · have hbe : b = existing := by
        apply List.inj_on_of_nodup_map hnodup hb hmem
        have h1 : b.id = book_id := by simpa using hbid
        rw [h1, hid]
      rw [if_pos hbid, hbe]
    · rw [if_neg hbid]
  unfold edit_book
  rcases hfind : books.find? (fun b => b.id == book_id) with _ | existing
  · rw [hfind]
    simp
  · rw [hfind]
    rcases cover with _ | u
    · rw [author_first_name_eq author]
      simp only [Option.map_some', Option.some_inj]
      exact key existing hfind
    · have hu : u.filename = [] := hcov u rfl
      rw [author_first_name_eq author]
      simp only [hu, ne_eq, not_true_eq_false, if_false, Option.map_some', Option.some_inj]
      exact key existing hfind

theorem C6_edit_preserves_cover_witness :
    (edit_book [bookA, bookB] 1 "T".data "Ann Lee".data [] "Other".data []
        none "ffff".data).map (fun res => res.1.map Book.cover_filename)
      = some ([bookA, bookB].map Book.cover_filename) :=
  C6_edit_preserves_cover [bookA, bookB] 1 "T".data "Ann Lee".data []
    "Other".data [] none "ffff".data (by decide) (fun u h => by cases h)

/-- Claim C7: for every stored state and every edit input, the edit operation
never changes any record's id or creation timestamp (they are absent from the
UPDATE's SET list), and it re-derives author_first from the supplied author
for every row it writes: afterwards every row whose id matches the edited id
carries the derived author-first-token of the supplied author. -/
theorem C7_edit_id_created_immutable (books : List Book) (book_id : Nat)
    (title author edition genre hover_message : PyStr)
    (cover : Option Upload) (freshHex : PyStr) :
    (edit_book books book_id title author edition genre hover_message
        cover freshHex).map
        (fun res => (res.1.map fun b => (b.id, b.created_at),
                     (res.1.filter fun b => b.id == book_id).map Book.author_first))
      = some (books.map fun b => (b.id, b.created_at),
              (books.filter fun b => b.id == book_id).map
                fun _ => spec_author_first_token author) := by
  unfold edit_book
  rcases hfind : books.find? (fun b => b.id == book_id) with _ | existing
  · have hnone := List.find?_eq_none.mp hfind
    have hfilter : books.filter (fun b => b.id == book_id) = [] :=
      List.filter_eq_nil_iff.mpr hnone
    rw [hfind]
    simp [hfilter]
  · rw [hfind]
    rw [author_first_name_eq author]
    simp only [Option.map_some', Option.some_inj, Prod.mk.injEq]
    constructor
    · refine map_update_proj books _ _ ?_
      intro b _
      by_cases hbid : (b.id == book_id) = true
      · rw [if_pos hbid]
      · rw [if_neg hbid]
    · refine filter_map_update books _ _ ?_ _ _ ?_
      · intro b
        by_cases hbid : (b.id == book_id) = true
        · rw [if_pos hbid]
        · rw [if_neg hbid]
      · intro b hbid
        rw [if_pos hbid]

/-- Claim C8: deleting an id absent from the store returns the same 303
redirect to the listing view as any delete returns (no distinguishable
error), and leaves the stored records unchanged. -/
theorem C8_delete_missing (st : AppState) (x : Nat)
    (h : ∀ b ∈ st.books, b.id ≠ x) :
    (delete_book st x).1.books = st.books ∧
    (delete_book st x).2 = Resp.redirect "/collection".data 303 ∧
    ∀ (st2 : AppState) (y : Nat), (delete_book st2 y).2 = (delete_book st x).2 := by
  refine ⟨?_, rfl, fun st2 y => rfl⟩
  show st.books.filter (fun b => !(b.id == x)) = st.books
  rw [List.filter_eq_self]
  intro b hb
  simpa using h b hb

theorem C8_delete_missing_witness :
    (delete_book stTwo 5).1.books = stTwo.books ∧
    (delete_book stTwo 5).2 = Resp.redirect "/collection".data 303 :=
  ⟨(C8_delete_missing stTwo 5 (by decide)).1,
   (C8_delete_missing stTwo 5 (by decide)).2.1⟩

theorem length_filter_le_range (N m : Nat) (h : m < N) :
    ((List.range N).filter fun k => k ≤ m).length = m + 1 := by
  induction N with
  | zero => omega
  | succ N ih =>
    rw [List.range_succ, List.filter_append, List.length_append]
    rcases Nat.lt_succ_iff_lt_or_eq.mp h with hlt | heq
    · rw [ih hlt]
      have hN : ¬ N ≤ m := by omega
      simp [hN]
    · have hall : ((List.range N).filter fun k => k ≤ m).length = N := by
        have he : ((List.range N).filter fun k => k ≤ m) = List.range N := by
          rw [List.filter_eq_self]
          intro a ha
          have ha2 := List.mem_range.mp ha
          simp only [decide_eq_true_eq]
          omega
        rw [he, List.length_range]
      have hone : (([N] : List Nat).filter fun k => k ≤ m).length = 1 := by
        have hle : N ≤ m := by omega
        simp [hle]
      omega

theorem intSqrt_eq_sqrt (n : Nat) : intSqrt n = Nat.sqrt n := by
  unfold intSqrt
  have hcong : ((List.range (n + 1)).filter fun k => k * k ≤ n) =
      (List.range (n + 1)).filter fun k => k ≤ Nat.sqrt n := by
    apply List.filter_congr
    intro k _
    simp only [decide_eq_decide]
    exact ⟨fun hk => Nat.le_sqrt.mpr hk, fun hk => Nat.le_sqrt.mp hk⟩
  have hlt : Nat.sqrt n < n + 1 := by
    have := Nat.sqrt_le_self n
    omega
  rw [hcong, length_filter_le_range (n + 1) (Nat.sqrt n) hlt]
  omega

theorem collageCols_ge_three (n : Nat) : 3 ≤ collageCols n :=
  le_min (by norm_num) (le_max_left 3 _)

theorem collageRows_bounds (n : Nat) (h : 1 ≤ n) :
    n ≤ collageRows n * collageCols n ∧
    (collageRows n - 1) * collageCols n < n := by
  have hc3 := collageCols_ge_three n
  have hc0 : 0 < collageCols n := by omega
  unfold collageRows
  set c := collageCols n with hcdef
  have hdm := Nat.div_add_mod (n + c - 1) c
  have hmlt : (n + c - 1) % c < c := Nat.mod_lt _ hc0
  set q := (n + c - 1) / c with hqdef
  set s := (n + c - 1) % c with hsdef
  rcases Nat.eq_zero_or_pos q with hq0 | hqpos
  · exfalso
    rw [hq0] at hdm
    omega
  · have hq1 : q - 1 + 1 = q := Nat.succ_pred_eq_of_pos hqpos
    have hqc : q * c = (q - 1) * c + c := by
      calc q * c = (q - 1 + 1) * c := by rw [hq1]
        _ = (q - 1) * c + c := by rw [Nat.succ_mul]
    have hcq : c * q = q * c := Nat.mul_comm c q
    set u := (q - 1) * c with hudef
    rw [hcq, hqc] at hdm
    constructor
    · rw [hqc]
      omega
    · omega

/-- Rounding certificate: (intSqrt (16 n) + 1) / 2 really is the nearest
integer to 2 sqrt(n): writing k for it, (2k-1)^2 ≤ 16n < (2k+1)^2, that is,
k - 1/2 ≤ 2 sqrt(n) < k + 1/2. No tie is possible: 16n is even and cannot
equal the odd square (2k-1)^2. This certifies the encoding of round used in
spec_claimed_cols. -/
theorem spec_claimed_cols_round (n : Nat) :
    (2 * ((intSqrt (16 * n) + 1) / 2) - 1) * (2 * ((intSqrt (16 * n) + 1) / 2) - 1)
        ≤ 16 * n ∧
    16 * n < (2 * ((intSqrt (16 * n) + 1) / 2) + 1)
        * (2 * ((intSqrt (16 * n) + 1) / 2) + 1) := by
  rw [intSqrt_eq_sqrt]
  have h1 : Nat.sqrt (16 * n) * Nat.sqrt (16 * n) ≤ 16 * n := Nat.sqrt_le (16 * n)
  have h2 : 16 * n < (Nat.sqrt (16 * n) + 1) * (Nat.sqrt (16 * n) + 1) :=
    Nat.lt_succ_sqrt (16 * n)
  set m := Nat.sqrt (16 * n) with hm
  rcases Nat.even_or_odd m with ⟨t, ht⟩ | ⟨t, ht⟩
  · have hk : (m + 1) / 2 = t := by omega
    rw [hk]
    constructor
    · have hle : 2 * t - 1 ≤ m := by omega
      exact le_trans (Nat.mul_le_mul hle hle) h1
    · have he : m + 1 = 2 * t + 1 := by omega
      rw [he] at h2
      exact h2
  · have hk : (m + 1) / 2 = t + 1 := by omega
    rw [hk]
    constructor
    · have he : 2 * (t + 1) - 1 = m := by omega
      rw [he]
      exact h1
    · have hle : m + 1 ≤ 2 * (t + 1) + 1 := by omega
      exact lt_of_lt_of_le h2 (Nat.mul_le_mul hle hle)

/-- Claim C1 as stated is false at N = 6: the code truncates, computing
min(8, max(3, int(sqrt(6) * 2))) = 4 columns (2 sqrt(6) = 4.898...), while
the claimed clamp(round(sqrt(6) * 2), 3, 8) is 5. -/
theorem C1_counterexample : collageCols 6 = 4 ∧ spec_claimed_cols 6 = 5 := by
  decide

/-- Claim C1 (amended): for every asset count N ≥ 1 the column count equals
clamp(floor(sqrt(N) * 2), min 3, max 8) — truncation instead of the claimed
rounding — and the row count is the ceiling of N / columns, characterised by
rows * cols ≥ N and (rows - 1) * cols < N; the boundary instances N=1 → 3
columns, N=9 → 6 columns and N=64 → 8 columns hold as claimed. The argument d
is pinned to floor(2 sqrt(N)) by d*d ≤ 4N < (d+1)*(d+1). -/
theorem C1_columns_formula (n d : Nat) (h1 : 1 ≤ n)
    (hd1 : d * d ≤ 4 * n) (hd2 : 4 * n < (d + 1) * (d + 1)) :
    collageCols n = min 8 (max 3 d) ∧
    n ≤ collageRows n * collageCols n ∧
    (collageRows n - 1) * collageCols n < n ∧
    collageCols 1 = 3 ∧ collageCols 9 = 6 ∧ collageCols 64 = 8 := by
  have hd : d = Nat.sqrt (4 * n) := Nat.eq_sqrt.mpr ⟨hd1, hd2⟩
  refine ⟨?_, (collageRows_bounds n h1).1, (collageRows_bounds n h1).2,
    by decide, by decide, by decide⟩
  unfold collageCols
  rw [intSqrt_eq_sqrt, ← hd]

theorem C1_columns_formula_witness :
    collageCols 6 = min 8 (max 3 4) ∧
    6 ≤ collageRows 6 * collageCols 6 ∧
    (collageRows 6 - 1) * collageCols 6 < 6 ∧
    collageCols 1 = 3 ∧ collageCols 9 = 6 ∧ collageCols 64 = 8 :=
  C1_columns_formula 6 4 (by decide) (by decide) (by decide)

/-- Claim C10: every tile placement lies within the canvas: for every asset
count N ≥ 1 and index i < N, the row i div cols is strictly below the row
count, the column i mod cols is strictly below the column count, and the
220 x 320 tile pasted at ((i mod cols)*220, (i div cols)*320) stays inside
the (cols*220) x (rows*320) canvas. -/
theorem C10_tiles_within_canvas (n i : Nat) (h1 : 1 ≤ n) (h2 : i < n) :
    i / collageCols n < collageRows n ∧
    i % collageCols n < collageCols n ∧
    i % collageCols n * 220 + 220 ≤ collageCols n * 220 ∧
    i / collageCols n * 320 + 320 ≤ collageRows n * 320 := by
  have hc3 := collageCols_ge_three n
  have hc0 : 0 < collageCols n := by omega
  have hb := collageRows_bounds n h1
  have hdiv : i / collageCols n < collageRows n := by
    rw [Nat.div_lt_iff_lt_mul hc0]
    exact lt_of_lt_of_le h2 hb.1
  have hmod : i % collageCols n < collageCols n := Nat.mod_lt _ hc0
  refine ⟨hdiv, hmod, ?_, ?_⟩
  · have h3 : i % collageCols n + 1 ≤ collageCols n := hmod
    omega
  · have h3 : i / collageCols n + 1 ≤ collageRows n := hdiv
    omega

theorem C10_tiles_within_canvas_witness :
    4 / collageCols 5 < collageRows 5 ∧
    4 % collageCols 5 < collageCols 5 ∧
    4 % collageCols 5 * 220 + 220 ≤ collageCols 5 * 220 ∧
    4 / collageCols 5 * 320 + 320 ≤ collageRows 5 * 320 :=
  C10_tiles_within_canvas 5 4 (by decide) (by decide)

theorem coverLe_trans : ∀ a b c : CoverFile, coverLe a b → coverLe b c → coverLe a c :=
  fun _ _ _ h1 h2 => strLe_trans _ _ _ h1 h2

theorem coverLe_total : ∀ a b : CoverFile, coverLe a b || coverLe b a :=
  fun a b => strLe_total a.name b.name

theorem mem_collageTiles_iff {covers : List CoverFile} {c : Nat} {t : Tile} :
    t ∈ collageTiles covers c ↔
      ∃ i f, covers[i]? = some f ∧ f.decodable = true ∧
        t = ⟨i % c * 220, i / c * 320, 220, 320, f.name⟩ := by
  unfold collageTiles
  rw [List.mem_filterMap]
  constructor
  · rintro ⟨⟨i, f⟩, hmem, hf⟩
    rw [List.mem_enum_iff_getElem?] at hmem
    by_cases hd : f.decodable = true
    · simp only [hd, if_true, Option.some_inj] at hf
      exact ⟨i, f, hmem, hd, hf.symm⟩
    · rw [Bool.not_eq_true] at hd
      simp [hd] at hf
  · rintro ⟨i, f, hget, hdec, rfl⟩
    refine ⟨(i, f), ?_, ?_⟩
    · rw [List.mem_enum_iff_getElem?]
      exact hget
    · simp [hdec]

theorem generate_cover_collage_eq (files : List CoverFile) (prev : Option Collage)
    (h : collageAssets files ≠ []) :
    generate_cover_collage files prev =
      some { mode := "RGB".data,
             width := collageCols (collageAssets files).length * 220,
             height := collageRows (collageAssets files).length * 320,
             background := (255, 255, 255),
             tiles := collageTiles (collageAssets files)
                        (collageCols (collageAssets files).length) } := by
  unfold generate_cover_collage
  simp [h]

/-- Claim C4 (amended): whenever the collage generator runs and no entry of
the covers directory passes the extension allow-list (case-insensitively), it
deletes any previously generated collage file and produces none — the result
is no collage regardless of the previous state, and conversely a collage is
produced exactly when some entry passes the allow-list. However, deleting the
last book with a cover does not leave the system without a collage file: the
delete route never removes cover files from disk, so regeneration still finds
the orphaned cover (see C4_counterexample). -/
theorem C4_no_assets_no_collage (files : List CoverFile) (prev : Option Collage) :
    generate_cover_collage files prev = none ↔
      ∀ f ∈ files, asciiLower (pySuffix f.name) ∉ allowedExts := by
  constructor
  · intro h f hf hmem
    by_cases hc : collageAssets files = []
    · have hfmem : f ∈ collageAssets files := by
        unfold collageAssets
        rw [List.mem_filter]
        exact ⟨((sortLe_perm coverLe files).mem_iff).mpr hf, by simpa using hmem⟩
      rw [hc] at hfmem
      cases hfmem
    · rw [generate_cover_collage_eq files prev hc] at h
      cases h
  · intro h
    have hc : collageAssets files = [] := by
      unfold collageAssets
      rw [List.filter_eq_nil_iff]
      intro f hf
      have hfmem : f ∈ files := ((sortLe_perm coverLe files).mem_iff).mp hf
      simpa using h f hfmem
    unfold generate_cover_collage
    simp [hc]

theorem C4_no_assets_no_collage_witness :
    generate_cover_collage [⟨"notes.txt".data, true⟩] (some oldCollage) = none :=
  (C4_no_assets_no_collage [⟨"notes.txt".data, true⟩] (some oldCollage)).mpr
    (by decide)

/-- Claim C4 as stated is false in its final consequence: after deleting the
last book with a cover, a collage file does remain. In state stOne there is
exactly one book, whose cover file aa.jpg is on disk, and a collage file
exists; the delete route removes the record but not the cover file, and the
regeneration that the route triggers rebuilds a collage from the orphaned
cover instead of leaving none. -/
theorem C4_counterexample :
    (delete_book stOne 1).1.books = [] ∧
    (delete_book stOne 1).1.collage ≠ none := by decide


/-- Claim C5: whenever at least one asset passes the allow-list, collage
generation completes and persists a composite whatever the decode outcomes
are; every decodable asset occupies its row-major slot, and an asset that
fails to decode is skipped silently — no tile is pasted at its slot, which
keeps the background — without aborting the rest of the collage. -/
theorem C5_corrupt_asset_skipped (files : List CoverFile) (prev : Option Collage)
    (h : collageAssets files ≠ []) :
    ∃ col, generate_cover_collage files prev = some col ∧
      (∀ i f, (collageAssets files)[i]? = some f → f.decodable = true →
          (⟨i % collageCols (collageAssets files).length * 220,
            i / collageCols (collageAssets files).length * 320, 220, 320,
            f.name⟩ : Tile) ∈ col.tiles) ∧
      (∀ i f, (collageAssets files)[i]? = some f → f.decodable = false →
          ∀ t ∈ col.tiles,
            ¬(t.x = i % collageCols (collageAssets files).length * 220 ∧
              t.y = i / collageCols (collageAssets files).length * 320)) := by
  refine ⟨_, generate_cover_collage_eq files prev h, ?_, ?_⟩
  · intro i f hget hdec
    show _ ∈ collageTiles (collageAssets files) (collageCols (collageAssets files).length)
    rw [mem_collageTiles_iff]
    exact ⟨i, f, hget, hdec, rfl⟩
  · intro i f hget hdec t ht hxy
    have ht2 : t ∈ collageTiles (collageAssets files)
        (collageCols (collageAssets files).length) := ht
    rw [mem_collageTiles_iff] at ht2
    obtain ⟨j, g, hjget, hjdec, rfl⟩ := ht2
    obtain ⟨hx, hy⟩ := hxy
    have hmod := Nat.eq_of_mul_eq_mul_right (show 0 < 220 by norm_num) hx
    have hdiv := Nat.eq_of_mul_eq_mul_right (show 0 < 320 by norm_num) hy
    have hji : j = i := by
      have h1 := Nat.div_add_mod j (collageCols (collageAssets files).length)
      have h2 := Nat.div_add_mod i (collageCols (collageAssets files).length)
      rw [hmod, hdiv] at h1
      omega
    rw [hji, hget] at hjget
    obtain rfl : f = g := Option.some_inj.mp hjget
    rw [hdec] at hjdec
    simp at hjdec

theorem C5_corrupt_asset_skipped_witness :
    (generate_cover_collage filesFour none).isSome = true := by
  obtain ⟨col, hcol, -, -⟩ := C5_corrupt_asset_skipped filesFour none (by decide)
  rw [hcol]
  rfl

/-- Claim C9: the collage canvas is white three-channel RGB of size
(columns * 220) by (rows * 320) pixels; the assets are enumerated sorted
lexicographically by filename (the enumeration is sorted and is a permutation
of the allow-listed directory entries); and the asset at index i in that
order is resized to 220 x 320 and placed at pixel offset
((i mod columns) * 220, (i div columns) * 320), i.e. row-major. -/
theorem C9_canvas_and_layout (files : List CoverFile) (prev : Option Collage)
    (h : collageAssets files ≠ []) :
    ∃ col, generate_cover_collage files prev = some col ∧
      col.mode = "RGB".data ∧ ("RGB".data).length = 3 ∧
      col.background = (255, 255, 255) ∧
      col.width = collageCols (collageAssets files).length * 220 ∧
      col.height = collageRows (collageAssets files).length * 320 ∧
      (collageAssets files).Pairwise (fun a b => strLe a.name b.name = true) ∧
      (collageAssets files).Perm
        (files.filter fun p => asciiLower (pySuffix p.name) ∈ allowedExts) ∧
      (∀ i f, (collageAssets files)[i]? = some f → f.decodable = true →
          (⟨i % collageCols (collageAssets files).length * 220,
            i / collageCols (collageAssets files).length * 320, 220, 320,
            f.name⟩ : Tile) ∈ col.tiles) := by
  refine ⟨_, generate_cover_collage_eq files prev h, rfl, rfl, rfl, rfl, rfl,
    ?_, ?_, ?_⟩
  · have hs := sortLe_sorted coverLe coverLe_trans coverLe_total files
    exact List.Pairwise.sublist (List.filter_sublist _) hs
  · exact (sortLe_perm coverLe files).filter _
  · intro i f hget hdec
    show _ ∈ collageTiles (collageAssets files) (collageCols (collageAssets files).length)
    rw [mem_collageTiles_iff]
    exact ⟨i, f, hget, hdec, rfl⟩

theorem C9_canvas_and_layout_witness :
    (generate_cover_collage filesTwo none).map Collage.mode = some ("RGB".data) := by
  obtain ⟨col, hcol, hmode, -⟩ := C9_canvas_and_layout filesTwo none (by decide)
  rw [hcol, Option.map_some', hmode]
